import Mathlib

/-!
Shallow embedding of the template-mode timeline engine of
`pyJianYingDraft/template_mode.py` (together with the `Timerange` value
type of `pyJianYingDraft/Jianying_json.py`), and proofs about the
shrink/extend resolution algorithm `Imported_track.process_timerange`,
the descriptor round-trip of `Imported_segment` / `Imported_track` /
`Static_track`, and the construction-time `render_index` derivation.

Python integers are modelled as `Int` (arbitrary precision, possibly
negative); Python `//` on the non-negative quantities appearing in the
source coincides with `Int` division.  In-place mutation of the track's
segment list is modelled by state passing: the engine returns the final
segment list together with an optional raised error, exactly mirroring
which mutations have happened at the point an exception is raised.
-/

namespace PyJYD

/-- `Timerange` from `Jianying_json.py` (also `time_util.Timerange` as used
by `template_mode.py`): a start offset and a duration in microseconds. -/
structure Timerange where
  start : Int
  duration : Int
deriving Repr, DecidableEq

/-- The derived `end` property of a `Timerange` (spec: `end = start + duration`;
`end` is a reserved word in Lean, hence the name `endTime`). -/
def Timerange.endTime (t : Timerange) : Int := t.start + t.duration

/-- `Shrink_mode` from `template_mode.py`. -/
inductive Shrink_mode where
  | cut_head
  | cut_tail
  | cut_tail_align
  | shrink
deriving Repr, DecidableEq

/-- `Extend_mode` from `template_mode.py`. -/
inductive Extend_mode where
  | extend_head
  | extend_tail
  | push_tail
deriving Repr, DecidableEq

/-- A minimal JSON value type for the descriptor dictionaries the classes
of `template_mode.py` consume and re-emit.  Objects are association lists
(Python `dict`s with their insertion order). -/
inductive JVal where
  | jnull : JVal
  | jbool : Bool → JVal
  | jnum : Int → JVal
  | jstr : String → JVal
  | jarr : List JVal → JVal
  | jobj : List (String × JVal) → JVal
deriving Repr

/-- Python `d[k]` on a dict modelled as an association list. -/
def getKey : List (String × JVal) → String → Option JVal
  | [], _ => none
  | (k0, v0) :: rest, k => if k0 = k then some v0 else getKey rest k

/-- Python `d[k] = v`: replace the value at an existing key in place
(keeping its position), else append the new key at the end. -/
def setKey : List (String × JVal) → String → JVal → List (String × JVal)
  | [], k, v => [(k, v)]
  | (k0, v0) :: rest, k, v =>
    if k0 = k then (k0, v) :: rest else (k0, v0) :: setKey rest k v

/-- Python `base.update(upd)`: `setKey` for every pair of `upd` in order. -/
def updateObj (base upd : List (String × JVal)) : List (String × JVal) :=
  upd.foldl (fun acc kv => setKey acc kv.1 kv.2) base

/-- `Imported_segment` from `template_mode.py`: the original descriptor
(`raw_data`) plus the three typed attributes (`__DATA_ATTRS`) pulled out
of it. -/
structure Imported_segment where
  raw_data : List (String × JVal)
  material_id : String
  source_timerange : Timerange
  target_timerange : Timerange
deriving Repr

/-- The `start` property of `Imported_segment` (reads `target_timerange.start`). -/
def Imported_segment.start (s : Imported_segment) : Int := s.target_timerange.start

/-- The `duration` property of `Imported_segment` (reads `target_timerange.duration`). -/
def Imported_segment.duration (s : Imported_segment) : Int := s.target_timerange.duration

/-- The `end` property of `Imported_segment` (reads `target_timerange.end`). -/
def Imported_segment.endTime (s : Imported_segment) : Int := s.target_timerange.endTime

/-- The `start` setter of `Imported_segment` (writes `target_timerange.start`). -/
def setTargetStart (s : Imported_segment) (v : Int) : Imported_segment :=
  { s with target_timerange := { s.target_timerange with start := v } }

/-- The `duration` setter of `Imported_segment` (writes `target_timerange.duration`). -/
def setTargetDuration (s : Imported_segment) (v : Int) : Imported_segment :=
  { s with target_timerange := { s.target_timerange with duration := v } }

/-- The errors `process_timerange` can raise: Python `IndexError` from
`self.segments[seg_index]`, and `ExtensionFailed(f"Failed to extend segment
to {new_duration} μs, tried modes: {extend}")` whose message carries the
requested duration and the attempted mode list. -/
inductive PErr where
  | indexError
  | extensionFailed (new_duration : Int) (tried : List Extend_mode)
deriving Repr, DecidableEq

/-- `self.segments[i].start += d` for every `i` of the list, in order:
the body of the follower-shifting loops of `process_timerange`. -/
def shiftTail (d : Int) : List Imported_segment → List Imported_segment
  | [] => []
  | s :: r => setTargetStart s (s.start + d) :: shiftTail d r

/-- `for i in range(seg_index+1, len(self.segments)): self.segments[i].start += d`:
shift the start of every segment at an index strictly greater than `i`. -/
def shiftAfter : List Imported_segment → Nat → Int → List Imported_segment
  | [], _, _ => []
  | s :: r, 0, d => s :: shiftTail d r
  | s :: r, Nat.succ i, d => s :: shiftAfter r i d

/-- `prev_seg_end` of `process_timerange`: `0` for the first segment, else
the previous segment's `target_timerange.end`. -/
def prevEnd (segs : List Imported_segment) (i : Nat) : Int :=
  if i = 0 then 0 else
    match segs.get? (i - 1) with
    | some p => p.target_timerange.endTime
    | none => 0

/-- `next_seg_start` of `process_timerange`: the sentinel `int(1e15)` for
the last segment, else the next segment's `start`. -/
def nextStart (segs : List Imported_segment) (i : Nat) : Int :=
  if i = segs.length - 1 then 1000000000000000 else
    match segs.get? (i + 1) with
    | some n => n.start
    | none => 1000000000000000

/-- The `for mode in extend` loop of `process_timerange` (extend regime).
State passing models the in-place mutation: a failed `extend_head` /
`extend_tail` attempt leaves the list untouched and the loop continues;
the first success commits and breaks; an exhausted list raises
`ExtensionFailed` carrying `new_duration` and the full mode list. -/
def extendLoop (segs : List Imported_segment) (i : Nat)
    (delta prev_end next_start new_duration : Int) (tried : List Extend_mode) :
    List Extend_mode → Option PErr × List Imported_segment
  | [] => (some (.extensionFailed new_duration tried), segs)
  | m :: rest =>
    match segs.get? i with
    | none => (some .indexError, segs)
    | some seg =>
      match m with
      | .extend_head =>
        if seg.start - delta ≥ prev_end then
          (none, segs.set i (setTargetStart seg (seg.start - delta)))
        else
          extendLoop segs i delta prev_end next_start new_duration tried rest
      | .extend_tail =>
        if seg.endTime + delta ≤ next_start then
          (none, segs.set i (setTargetDuration seg (seg.duration + delta)))
        else
          extendLoop segs i delta prev_end next_start new_duration tried rest
      | .push_tail =>
        let shift := max 0 (seg.endTime + delta - next_start)
        let segs1 := segs.set i (setTargetDuration seg (seg.duration + delta))
        (none, if shift > 0 then shiftAfter segs1 i shift else segs1)

/-- `Imported_track.process_timerange` from `template_mode.py`, acting on
the track's segment list.  Returns the optionally raised error together
with the segment list as it stands when the call returns or raises. -/
def process_timerange (segs : List Imported_segment) (seg_index : Nat)
    (new_duration : Int) (shrink : Shrink_mode) (extend : List Extend_mode) :
    Option PErr × List Imported_segment :=
  match segs.get? seg_index with
  | none => (some .indexError, segs)
  | some seg =>
    let delta_duration := |new_duration - seg.duration|
    if new_duration < seg.duration then
      match shrink with
      | .cut_head =>
        (none, segs.set seg_index (setTargetStart seg (seg.start + delta_duration)))
      | .cut_tail =>
        (none, segs.set seg_index (setTargetDuration seg (seg.duration - delta_duration)))
      | .cut_tail_align =>
        let segs1 := segs.set seg_index (setTargetDuration seg (seg.duration - delta_duration))
        (none, shiftAfter segs1 seg_index (-delta_duration))
      | .shrink =>
        let seg1 := setTargetDuration seg (seg.duration - delta_duration)
        (none, segs.set seg_index (setTargetStart seg1 (seg1.start + delta_duration / 2)))
    else if new_duration > seg.duration then
      extendLoop segs seg_index delta_duration
        (prevEnd segs seg_index) (nextStart segs seg_index) new_duration extend extend
    else
      (none, segs)

/-- Modelled from the spec: `Track_type` (from the repository's `track.py`,
not present under `src/`).  The spec's data model gives a track kind of
video-like or audio-like (`{kind: VideoKind|AudioKind, ...}`). -/
inductive Track_type where
  | video
  | audio
deriving Repr, DecidableEq

/-- Modelled from the spec: `Track_type.from_name` (from the repository's
`track.py`, not present under `src/`), mapping the descriptor's `type`
media-kind tag to the track kind. -/
def Track_type.from_name (s : String) : Option Track_type :=
  if s = "video" then some .video
  else if s = "audio" then some .audio
  else none

/-- Modelled from the spec: reading a `Timerange`-typed attribute out of a
descriptor, as `util.assign_attr_with_json` (the repository's `util.py` is
not present under `src/`) does for `source_timerange`/`target_timerange`.
Per the spec's external-interface section each is "an object with `start`,
`duration`", in the fixed schema order that `Timerange.export_json`
(in `Jianying_json.py`) emits. -/
def parseTimerange : JVal → Option Timerange
  | .jobj [("start", .jnum s), ("duration", .jnum d)] => some ⟨s, d⟩
  | _ => none

/-- `Timerange.export_json` from `Jianying_json.py`:
`{"start": self.start, "duration": self.duration}`. -/
def Timerange.export_json (t : Timerange) : JVal :=
  .jobj [("start", .jnum t.start), ("duration", .jnum t.duration)]

/-- `Imported_segment.__init__`: keep a copy of the descriptor as
`raw_data` and assign the `__DATA_ATTRS` (`material_id`,
`source_timerange`, `target_timerange`) from it (the assignment itself is
`util.assign_attr_with_json`, modelled from the spec since `util.py` is
not under `src/`; a missing or ill-typed field fails the construction). -/
def Imported_segment.load (j : JVal) : Option Imported_segment :=
  match j with
  | .jobj fields =>
    match getKey fields "material_id", getKey fields "source_timerange",
          getKey fields "target_timerange" with
    | some (.jstr mid), some stj, some ttj =>
      match parseTimerange stj, parseTimerange ttj with
      | some st, some tt =>
        some { raw_data := fields, material_id := mid,
               source_timerange := st, target_timerange := tt }
      | _, _ => none
    | _, _, _ => none
  | _ => none

/-- `Imported_segment.export_json`: a copy of `raw_data` updated with the
exported `__DATA_ATTRS` in their declaration order (`util.export_attr_to_json`
is modelled from the spec: re-merge the typed fields back into the stored
payload at emit time). -/
def Imported_segment.export_json (s : Imported_segment) : JVal :=
  .jobj (updateObj s.raw_data
    [("material_id", .jstr s.material_id),
     ("source_timerange", s.source_timerange.export_json),
     ("target_timerange", s.target_timerange.export_json)])

/-- Reading a string field out of a descriptor (Python raises on a missing
key or mismatched type; here the construction fails). -/
def asStr : Option JVal → Option String
  | some (.jstr s) => some s
  | _ => none

/-- Reading a list field out of a descriptor. -/
def asArr : Option JVal → Option (List JVal)
  | some (.jarr l) => some l
  | _ => none

/-- `int(seg["render_index"])` for one segment descriptor. -/
def parseRenderIndex (j : JVal) : Option Int :=
  match j with
  | .jobj f =>
    match getKey f "render_index" with
    | some (.jnum n) => some n
    | _ => none
  | _ => none

/-- Python `max` over a list of ints: raises on an empty list (`none`),
else folds `max`. -/
def maxList : List Int → Option Int
  | [] => none
  | x :: xs => some (xs.foldl max x)

/-- `Imported_track` from `template_mode.py`: header fields, the original
descriptor (`raw_data`) and the parsed segment list. -/
structure Imported_track where
  track_type : Track_type
  name : String
  track_id : String
  render_index : Int
  raw_data : List (String × JVal)
  segments : List Imported_segment
deriving Repr

/-- `Imported_track.__init__`: read `type`/`name`/`id`, derive
`render_index = max(int(seg["render_index"]) for seg in segments)`
(failing on an empty segment list), keep the descriptor as `raw_data` and
parse every segment. -/
def Imported_track.load (j : JVal) : Option Imported_track :=
  match j with
  | .jobj fields => do
    let tys ← asStr (getKey fields "type")
    let ty ← Track_type.from_name tys
    let nm ← asStr (getKey fields "name")
    let tid ← asStr (getKey fields "id")
    let segsJ ← asArr (getKey fields "segments")
    let ris ← segsJ.mapM parseRenderIndex
    let ri ← maxList ris
    let segs ← segsJ.mapM Imported_segment.load
    some { track_type := ty, name := nm, track_id := tid, render_index := ri,
           raw_data := fields, segments := segs }
  | _ => none

/-- `Imported_track.export_json`:
`self.raw_data.update({"segments": [seg.export_json() for seg in self.segments]})`. -/
def Imported_track.export_json (t : Imported_track) : JVal :=
  .jobj (setKey t.raw_data "segments"
    (.jarr (t.segments.map Imported_segment.export_json)))

/-- The `start_time` property of `Imported_track`: `0` on an empty segment
list, else the first segment's `target_timerange.start`. -/
def Imported_track.start_time (t : Imported_track) : Int :=
  match t.segments with
  | [] => 0
  | s :: _ => s.target_timerange.start

/-- The `end_time` property of `Imported_track`: `0` on an empty segment
list, else the last segment's `target_timerange.end`. -/
def Imported_track.end_time (t : Imported_track) : Int :=
  match t.segments.getLast? with
  | none => 0
  | some s => s.target_timerange.endTime

/-- `Static_track` from `template_mode.py`: header fields plus the opaque
descriptor; its segments are never parsed. -/
structure Static_track where
  track_type : Track_type
  name : String
  track_id : String
  render_index : Int
  raw_data : List (String × JVal)
deriving Repr

/-- `Static_track.__init__`: identical header handling to
`Imported_track.__init__` (including the `render_index` derivation over
the segment descriptors), but the segments stay inside `raw_data`. -/
def Static_track.load (j : JVal) : Option Static_track :=
  match j with
  | .jobj fields => do
    let tys ← asStr (getKey fields "type")
    let ty ← Track_type.from_name tys
    let nm ← asStr (getKey fields "name")
    let tid ← asStr (getKey fields "id")
    let segsJ ← asArr (getKey fields "segments")
    let ris ← segsJ.mapM parseRenderIndex
    let ri ← maxList ris
    some { track_type := ty, name := nm, track_id := tid, render_index := ri,
           raw_data := fields }
  | _ => none

/-- `Static_track.export_json`: `return self.raw_data`. -/
def Static_track.export_json (t : Static_track) : JVal :=
  .jobj t.raw_data

/-- Shorthand for concrete segments used when instantiating the theorems:
an empty opaque payload, a material id, and the two timeranges. -/
def wseg (ms : String) (ss sd ts td : Int) : Imported_segment :=
  ⟨[], ms, ⟨ss, sd⟩, ⟨ts, td⟩⟩

/-- A concrete segment descriptor carrying an opaque extra field
(`volume`), used to instantiate the round-trip theorems. -/
def sampleSegJson : JVal :=
  .jobj [("material_id", .jstr "M1"),
         ("source_timerange", .jobj [("start", .jnum 0), ("duration", .jnum 5000)]),
         ("target_timerange", .jobj [("start", .jnum 100), ("duration", .jnum 5000)]),
         ("render_index", .jnum 3), ("volume", .jnum 1)]

/-- A concrete track descriptor carrying an opaque extra field (`color`). -/
def sampleTrackJson : JVal :=
  .jobj [("type", .jstr "video"), ("name", .jstr "track1"), ("id", .jstr "T1"),
         ("segments", .jarr [sampleSegJson]), ("color", .jstr "blue")]

/-- The fields of `sampleTrackJson`, as a dict. -/
def sampleTrackFields : List (String × JVal) :=
  [("type", .jstr "video"), ("name", .jstr "track1"), ("id", .jstr "T1"),
   ("segments", .jarr [sampleSegJson]), ("color", .jstr "blue")]

/-- The `Imported_segment` that loading `sampleSegJson` produces. -/
def sampleSeg : Imported_segment :=
  { raw_data := [("material_id", .jstr "M1"),
      ("source_timerange", .jobj [("start", .jnum 0), ("duration", .jnum 5000)]),
      ("target_timerange", .jobj [("start", .jnum 100), ("duration", .jnum 5000)]),
      ("render_index", .jnum 3), ("volume", .jnum 1)],
    material_id := "M1",
    source_timerange := ⟨0, 5000⟩,
    target_timerange := ⟨100, 5000⟩ }

/-- The `Imported_track` that loading `sampleTrackJson` produces. -/
def sampleTrack : Imported_track :=
  { track_type := .video, name := "track1", track_id := "T1", render_index := 3,
    raw_data := sampleTrackFields, segments := [sampleSeg] }

/-- The `Static_track` that loading `sampleTrackJson` produces. -/
def sampleStatic : Static_track :=
  { track_type := .video, name := "track1", track_id := "T1", render_index := 3,
    raw_data := sampleTrackFields }

/-! ### Basic lemmas about the segment setters and list operations -/

theorem setTargetStart_start (s : Imported_segment) (v : Int) :
    (setTargetStart s v).start = v := rfl

theorem setTargetStart_duration (s : Imported_segment) (v : Int) :
    (setTargetStart s v).duration = s.duration := rfl

theorem setTargetDuration_start (s : Imported_segment) (v : Int) :
    (setTargetDuration s v).start = s.start := rfl

theorem setTargetDuration_duration (s : Imported_segment) (v : Int) :
    (setTargetDuration s v).duration = v := rfl

theorem setTargetStart_source (s : Imported_segment) (v : Int) :
    (setTargetStart s v).source_timerange = s.source_timerange := rfl

theorem setTargetDuration_source (s : Imported_segment) (v : Int) :
    (setTargetDuration s v).source_timerange = s.source_timerange := rfl

theorem shiftTail_get? (d : Int) (l : List Imported_segment) (j : Nat) :
    (shiftTail d l).get? j
      = (l.get? j).map (fun s => setTargetStart s (s.start + d)) := by
  induction l generalizing j with
  | nil => simp [shiftTail]
  | cons a r ih =>
    cases j with
    | zero => simp [shiftTail]
    | succ n => simpa [shiftTail] using ih n

theorem shiftAfter_get?_le {l : List Imported_segment} {i j : Nat} (d : Int)
    (h : j ≤ i) : (shiftAfter l i d).get? j = l.get? j := by
  induction l generalizing i j with
  | nil => simp [shiftAfter]
  | cons a r ih =>
    cases i with
    | zero =>
      have : j = 0 := Nat.le_zero.mp h
      subst this; simp [shiftAfter]
    | succ n =>
      cases j with
      | zero => simp [shiftAfter]
      | succ m => simpa [shiftAfter] using ih (Nat.le_of_succ_le_succ h)

theorem shiftAfter_get?_gt {l : List Imported_segment} {i j : Nat} (d : Int)
    (h : i < j) :
    (shiftAfter l i d).get? j
      = (l.get? j).map (fun s => setTargetStart s (s.start + d)) := by
  induction l generalizing i j with
  | nil => simp [shiftAfter]
  | cons a r ih =>
    cases i with
    | zero =>
      cases j with
      | zero => exact absurd h (by omega)
      | succ m => simpa [shiftAfter] using shiftTail_get? d r m
    | succ n =>
      cases j with
      | zero => exact absurd h (by omega)
      | succ m => simpa [shiftAfter] using ih (Nat.lt_of_succ_lt_succ h)

theorem source_map_shiftTail (d : Int) (l : List Imported_segment) :
    (shiftTail d l).map Imported_segment.source_timerange
      = l.map Imported_segment.source_timerange := by
  induction l with
  | nil => rfl
  | cons a r ih => simp [shiftTail, setTargetStart_source, ih]

theorem source_map_shiftAfter (l : List Imported_segment) (i : Nat) (d : Int) :
    (shiftAfter l i d).map Imported_segment.source_timerange
      = l.map Imported_segment.source_timerange := by
  induction l generalizing i with
  | nil => rfl
  | cons a r ih =>
    cases i with
    | zero => simp [shiftAfter, source_map_shiftTail]
    | succ n => simp [shiftAfter, ih]

theorem source_map_set {segs : List Imported_segment} {i : Nat}
    {s : Imported_segment} (h : segs.get? i = some s)
    (g : Imported_segment → Imported_segment)
    (hg : (g s).source_timerange = s.source_timerange) :
    (segs.set i (g s)).map Imported_segment.source_timerange
      = segs.map Imported_segment.source_timerange := by
  induction segs generalizing i with
  | nil => simp
  | cons a r ih =>
    cases i with
    | zero =>
      have ha : a = s := by simpa using h
      subst ha
      simp [List.set, hg]
    | succ n =>
      have h2 : r.get? n = some s := by simpa using h
      simp [List.set, ih h2]

/-! ### Lemmas about the extend loop -/

theorem extendLoop_err {l : List Extend_mode} {segs : List Imported_segment}
    {i : Nat} {d pe ns nd : Int} {tried : List Extend_mode} {p : PErr}
    {s2 : List Imported_segment}
    (h : extendLoop segs i d pe ns nd tried l = (some p, s2)) :
    s2 = segs ∧ (p = .indexError ∨ p = .extensionFailed nd tried) := by
  induction l with
  | nil =>
    simp only [extendLoop] at h
    simp at h
    exact ⟨h.2.symm, Or.inr h.1.symm⟩
  | cons m rest ih =>
    simp only [extendLoop] at h
    split at h
    · simp at h
      exact ⟨h.2.symm, Or.inl h.1.symm⟩
    · split at h
      · split at h
        · simp at h
        · exact ih h
      · split at h
        · simp at h
        · exact ih h
      · simp at h

/-- C2: whenever `process_timerange` raises the Extension-Failed error, the
error carries the requested duration and the attempted policy list, and the
track's segment list is exactly its pre-call value (all-or-nothing). -/
theorem C2_extension_failed_total_and_atomic
    {segs : List Imported_segment} {i : Nat} {nd : Int} {sh : Shrink_mode}
    {ex : List Extend_mode} {d : Int} {ms : List Extend_mode}
    {s2 : List Imported_segment}
    (h : process_timerange segs i nd sh ex = (some (.extensionFailed d ms), s2)) :
    d = nd ∧ ms = ex ∧ s2 = segs := by
  unfold process_timerange at h
  split at h
  · simp at h
  · split at h
    · split at h <;> simp at h
    · split at h
      · obtain ⟨hs, hp⟩ := extendLoop_err h
        rcases hp with hp | hp
        · exact absurd hp (by simp)
        · obtain ⟨hd, hms⟩ := by simpa using hp
          exact ⟨hd, hms, hs⟩
      · simp at h

/-- Witness for C2: the spec's own atomicity scenario — three abutting
segments, an extend request on the middle one with only `extend_head` and
`extend_tail` listed and no room on either side. -/
theorem C2_extension_failed_total_and_atomic_witness :
    (2000 : Int) = 2000 ∧
    [Extend_mode.extend_head, Extend_mode.extend_tail]
      = [Extend_mode.extend_head, Extend_mode.extend_tail] ∧
    [(⟨[], "a", ⟨0, 0⟩, ⟨0, 1000⟩⟩ : Imported_segment),
     ⟨[], "b", ⟨0, 0⟩, ⟨1000, 1000⟩⟩, ⟨[], "c", ⟨0, 0⟩, ⟨2000, 1000⟩⟩]
      = [⟨[], "a", ⟨0, 0⟩, ⟨0, 1000⟩⟩,
         ⟨[], "b", ⟨0, 0⟩, ⟨1000, 1000⟩⟩, ⟨[], "c", ⟨0, 0⟩, ⟨2000, 1000⟩⟩] :=
  @C2_extension_failed_total_and_atomic
    [⟨[], "a", ⟨0, 0⟩, ⟨0, 1000⟩⟩,
     ⟨[], "b", ⟨0, 0⟩, ⟨1000, 1000⟩⟩, ⟨[], "c", ⟨0, 0⟩, ⟨2000, 1000⟩⟩]
    1 2000 .cut_tail [.extend_head, .extend_tail]
    2000 [.extend_head, .extend_tail]
    [⟨[], "a", ⟨0, 0⟩, ⟨0, 1000⟩⟩,
     ⟨[], "b", ⟨0, 0⟩, ⟨1000, 1000⟩⟩, ⟨[], "c", ⟨0, 0⟩, ⟨2000, 1000⟩⟩]
    rfl

/-- C1 (refuted by the code): on a one-segment track with
`target_timerange = {start 0, duration 5000}`, shrinking to `3000` with
`cut_head` only moves the start (`start += delta`) and never writes the
duration: the segment ends up `{start 2000, duration 5000}`, so
`target_timerange.duration` is still `5000 ≠ 3000` and the end moved from
`5000` to `7000` instead of staying fixed.  `cut_tail` at the same input
does produce duration `3000`, so the slip is specific to `cut_head`. -/
theorem C1_cut_head_divergence :
    process_timerange [⟨[], "m", ⟨0, 5000⟩, ⟨0, 5000⟩⟩] 0 3000 .cut_head []
      = (none, [⟨[], "m", ⟨0, 5000⟩, ⟨2000, 5000⟩⟩]) ∧
    (5000 : Int) ≠ 3000 ∧
    (2000 + 5000 : Int) ≠ 0 + 5000 ∧
    process_timerange [⟨[], "m", ⟨0, 5000⟩, ⟨0, 5000⟩⟩] 0 3000 .cut_tail []
      = (none, [⟨[], "m", ⟨0, 5000⟩, ⟨0, 3000⟩⟩]) :=
  ⟨rfl, by decide, by decide, rfl⟩

/-- Source timeranges are untouched by the whole extend loop. -/
theorem source_map_extendLoop (l : List Extend_mode)
    (segs : List Imported_segment) (i : Nat) (d pe ns nd : Int)
    (tried : List Extend_mode) :
    ((extendLoop segs i d pe ns nd tried l).2).map Imported_segment.source_timerange
      = segs.map Imported_segment.source_timerange := by
  induction l with
  | nil => rfl
  | cons m rest ih =>
    simp only [extendLoop]
    split
    · rfl
    · next seg hget =>
      split
      · split
        · exact source_map_set hget (fun s => setTargetStart s (s.start - d)) rfl
        · exact ih
      · split
        · exact source_map_set hget (fun s => setTargetDuration s (s.duration + d)) rfl
        · exact ih
      · split
        · rw [source_map_shiftAfter]
          exact source_map_set hget (fun s => setTargetDuration s (s.duration + d)) rfl
        · exact source_map_set hget (fun s => setTargetDuration s (s.duration + d)) rfl

/-- C7 (amended): `process_timerange` never modifies `source_timerange` of
any segment at all — neither its `start` nor its `duration` — under every
policy and on every input (whether the call returns or raises). -/
theorem C7_source_timeranges_untouched (segs : List Imported_segment)
    (i : Nat) (nd : Int) (sh : Shrink_mode) (ex : List Extend_mode) :
    ((process_timerange segs i nd sh ex).2).map Imported_segment.source_timerange
      = segs.map Imported_segment.source_timerange := by
  unfold process_timerange
  split
  · rfl
  · next seg hget =>
    split
    · cases sh with
      | cut_head =>
        exact source_map_set hget
          (fun s => setTargetStart s (s.start + |nd - s.duration|)) rfl
      | cut_tail =>
        exact source_map_set hget
          (fun s => setTargetDuration s (s.duration - |nd - s.duration|)) rfl
      | cut_tail_align =>
        rw [source_map_shiftAfter]
        exact source_map_set hget
          (fun s => setTargetDuration s (s.duration - |nd - s.duration|)) rfl
      | shrink =>
        exact source_map_set hget
          (fun s => setTargetStart (setTargetDuration s (s.duration - |nd - s.duration|))
            ((setTargetDuration s (s.duration - |nd - s.duration|)).start
              + |nd - s.duration| / 2)) rfl
    · split
      · exact source_map_extendLoop ..
      · rfl

/-- C7 counterexample: a successful duration replacement (`cut_tail`,
`5000 → 3000`) leaves the addressed segment's `source_timerange.duration`
at its old value `5000`; `process_timerange` does not set it to the new
duration as the claim states. -/
theorem C7_counterexample_source_duration_not_set :
    ((process_timerange [⟨[], "m", ⟨100, 5000⟩, ⟨0, 5000⟩⟩] 0 3000 .cut_tail []).2).map
        (fun s => s.source_timerange.duration) = [5000] ∧
    (5000 : Int) ≠ 3000 :=
  ⟨rfl, by decide⟩

/-- C8 counterexample: `new_duration = -1` is not rejected: the call
returns without error and mutates the segment (`cut_tail` leaves
`target_timerange.duration = -1`). -/
theorem C8_counterexample_negative_duration_accepted :
    (process_timerange [⟨[], "m", ⟨0, 5000⟩, ⟨0, 5000⟩⟩] 0 (-1) .cut_tail []).1 = none ∧
    ((process_timerange [⟨[], "m", ⟨0, 5000⟩, ⟨0, 5000⟩⟩] 0 (-1) .cut_tail []).2).map
        Imported_segment.duration = [-1] ∧
    ((-1 : Int) < 0) :=
  ⟨rfl, rfl, by decide⟩

/-- C8 (amended): the engine enforces no `new_duration ≥ 0` precondition:
a negative `new_duration` on a segment of non-negative current duration is
handled by the shrink regime like any smaller duration — e.g. under
`cut_tail` the call succeeds and sets the target duration to the negative
value. -/
theorem C8_negative_duration_not_rejected {segs : List Imported_segment}
    {i : Nat} {seg : Imported_segment} (hget : segs.get? i = some seg)
    {nd : Int} (hneg : nd < 0) (hdur : 0 ≤ seg.duration)
    (ex : List Extend_mode) :
    (process_timerange segs i nd .cut_tail ex).1 = none ∧
    ((process_timerange segs i nd .cut_tail ex).2).get? i
      = some (setTargetDuration seg nd) := by
  have hlt : nd < seg.duration := by omega
  have habs : |nd - seg.duration| = seg.duration - nd := by
    rw [abs_of_nonpos (by omega), neg_sub]
  have hlen : i < segs.length := by
    rcases List.get?_eq_some.mp hget with ⟨h, _⟩
    exact h
  simp only [process_timerange, hget, if_pos hlt, habs]
  constructor
  · trivial
  · rw [List.get?_set_eq_of_lt _ hlen]
    congr 1
    have : seg.duration - (seg.duration - nd) = nd := by omega
    rw [this]

/-- Witness for C8 (amended): `new_duration = -5` on a segment of duration
`7`. -/
theorem C8_negative_duration_not_rejected_witness :
    (process_timerange [(⟨[], "m", ⟨0, 7⟩, ⟨0, 7⟩⟩ : Imported_segment)] 0 (-5) .cut_tail []).1 = none ∧
    ((process_timerange [(⟨[], "m", ⟨0, 7⟩, ⟨0, 7⟩⟩ : Imported_segment)] 0 (-5) .cut_tail []).2).get? 0
      = some (setTargetDuration ⟨[], "m", ⟨0, 7⟩, ⟨0, 7⟩⟩ (-5)) :=
  @C8_negative_duration_not_rejected [⟨[], "m", ⟨0, 7⟩, ⟨0, 7⟩⟩]
    0 ⟨[], "m", ⟨0, 7⟩, ⟨0, 7⟩⟩ rfl (-5) (by decide) (by decide) []

/-- The `tried` argument of `extendLoop` is only reported inside the
Extension-Failed error: it affects neither the final segment list nor
whether the loop succeeds. -/
theorem extendLoop_tried_irrel (l : List Extend_mode)
    (segs : List Imported_segment) (i : Nat) (d pe ns nd : Int)
    (t1 t2 : List Extend_mode) :
    (extendLoop segs i d pe ns nd t1 l).2 = (extendLoop segs i d pe ns nd t2 l).2 ∧
    ((extendLoop segs i d pe ns nd t1 l).1 = none ↔
      (extendLoop segs i d pe ns nd t2 l).1 = none) := by
  induction l with
  | nil => simp [extendLoop]
  | cons m rest ih =>
    simp only [extendLoop]
    split
    · simp
    · split
      · split
        · simp
        · exact ih
      · split
        · simp
        · exact ih
      · simp

/-- C3: in the extend regime the engine walks the caller-supplied policy
list in order and commits exactly the first success.  With `extend_head`
listed first: it succeeds iff `start - delta ≥ prev_end`, in which case the
call commits `start -= delta` and stops; when it fails, no segment is
mutated and the outcome (final state, and success or failure) is that of
the remaining policy list.  With `extend_tail` first and
`end + delta ≤ next_start`, the call likewise commits `duration += delta`. -/
theorem C3_extend_policies_tried_in_order {segs : List Imported_segment}
    {i : Nat} {seg : Imported_segment} (hget : segs.get? i = some seg)
    {nd : Int} (hgt : seg.duration < nd) (sh : Shrink_mode)
    (rest : List Extend_mode) :
    (prevEnd segs i ≤ seg.start - (nd - seg.duration) →
      process_timerange segs i nd sh (.extend_head :: rest)
        = (none, segs.set i (setTargetStart seg (seg.start - (nd - seg.duration))))) ∧
    (seg.start - (nd - seg.duration) < prevEnd segs i →
      (process_timerange segs i nd sh (.extend_head :: rest)).2
        = (process_timerange segs i nd sh rest).2 ∧
      ((process_timerange segs i nd sh (.extend_head :: rest)).1 = none ↔
        (process_timerange segs i nd sh rest).1 = none)) ∧
    (seg.endTime + (nd - seg.duration) ≤ nextStart segs i →
      process_timerange segs i nd sh (.extend_tail :: rest)
        = (none, segs.set i (setTargetDuration seg (seg.duration + (nd - seg.duration))))) := by
  have hnotlt : ¬ nd < seg.duration := by omega
  have hgt2 : nd > seg.duration := hgt
  have habs : |nd - seg.duration| = nd - seg.duration := abs_of_nonneg (by omega)
  refine ⟨?_, ?_, ?_⟩
  · intro hc
    simp only [process_timerange, hget, habs, if_neg hnotlt, if_pos hgt2, extendLoop]
    rw [if_pos hc]
  · intro hc
    simp only [process_timerange, hget, habs, if_neg hnotlt, if_pos hgt2, extendLoop]
    rw [if_neg (not_le.mpr hc)]
    exact extendLoop_tried_irrel ..
  · intro hc
    simp only [process_timerange, hget, habs, if_neg hnotlt, if_pos hgt2, extendLoop]
    rw [if_pos hc]

/-- Witness for C3: a lone segment `{start 2000, duration 1000}` extended
to `3000` commits `extend_head` (or `extend_tail`) as the first listed
policy; a second segment `{start 1000, duration 1000}` behind `{start 0,
duration 1000}` has no head room, so `extend_head` falls through to
`push_tail` with no extra mutation. -/
theorem C3_extend_policies_tried_in_order_witness :
    process_timerange [wseg "a" 0 0 2000 1000] 0 3000 .cut_tail [.extend_head]
      = (none, [wseg "a" 0 0 2000 1000].set 0
          (setTargetStart (wseg "a" 0 0 2000 1000)
            ((wseg "a" 0 0 2000 1000).start - (3000 - (wseg "a" 0 0 2000 1000).duration)))) ∧
    ((process_timerange [wseg "p" 0 0 0 1000, wseg "q" 0 0 1000 1000] 1 1500 .cut_tail
        [.extend_head, .push_tail]).2
      = (process_timerange [wseg "p" 0 0 0 1000, wseg "q" 0 0 1000 1000] 1 1500 .cut_tail
          [.push_tail]).2 ∧
     ((process_timerange [wseg "p" 0 0 0 1000, wseg "q" 0 0 1000 1000] 1 1500 .cut_tail
          [.extend_head, .push_tail]).1 = none ↔
      (process_timerange [wseg "p" 0 0 0 1000, wseg "q" 0 0 1000 1000] 1 1500 .cut_tail
          [.push_tail]).1 = none)) ∧
    process_timerange [wseg "a" 0 0 2000 1000] 0 3000 .cut_tail [.extend_tail]
      = (none, [wseg "a" 0 0 2000 1000].set 0
          (setTargetDuration (wseg "a" 0 0 2000 1000)
            ((wseg "a" 0 0 2000 1000).duration + (3000 - (wseg "a" 0 0 2000 1000).duration)))) := by
  refine ⟨?_, ?_, ?_⟩
  · exact (@C3_extend_policies_tried_in_order [wseg "a" 0 0 2000 1000]
      0 (wseg "a" 0 0 2000 1000) rfl 3000 (by decide)
      .cut_tail []).1 (by decide)
  · exact (@C3_extend_policies_tried_in_order
      [wseg "p" 0 0 0 1000, wseg "q" 0 0 1000 1000]
      1 (wseg "q" 0 0 1000 1000) rfl 1500 (by decide)
      .cut_tail [.push_tail]).2.1 (by decide)
  · exact (@C3_extend_policies_tried_in_order [wseg "a" 0 0 2000 1000]
      0 (wseg "a" 0 0 2000 1000) rfl 3000 (by decide)
      .cut_tail []).2.2 (by decide)

/-- After a committed `push_tail` (duration bumped on the addressed
segment, followers shifted when the shift is positive), the start of every
segment at an index beyond the addressed one has moved by exactly
`max 0 (end + delta − next_start)`. -/
theorem pushTail_start_shift {segs : List Imported_segment} {i : Nat}
    {A : Imported_segment} (d : Int)
    (j : Nat) (hj : i < j) (ns : Int) :
    (((if max 0 (A.endTime + d - ns) > 0
          then shiftAfter (segs.set i (setTargetDuration A (A.duration + d))) i
            (max 0 (A.endTime + d - ns))
          else segs.set i (setTargetDuration A (A.duration + d)))).get? j).map
        Imported_segment.start
      = (segs.get? j).map (fun s => s.start + max 0 (A.endTime + d - ns)) := by
  by_cases hs : max 0 (A.endTime + d - ns) > 0
  · rw [if_pos hs, shiftAfter_get?_gt _ hj, List.get?_set_ne _ _ (by omega)]
    cases segs.get? j <;> simp [setTargetStart_start]
  · rw [if_neg hs]
    have h0 : max 0 (A.endTime + d - ns) = 0 :=
      le_antisymm (not_lt.mp hs) (le_max_left ..)
    rw [List.get?_set_ne _ _ (by omega), h0]
    cases segs.get? j <;> simp

/-- C4: with `push_tail` as the first tried policy the extend always
succeeds; every following segment's start is shifted by exactly
`max 0 (end + delta − next_start)`; in particular if the next segment `B`
abuts the addressed segment `A` (`A.end == B.start`), `B`'s new start is
`A.start + A.duration_before + delta`, which is `A`'s new end. -/
theorem C4_push_tail_always_succeeds {segs : List Imported_segment}
    {i : Nat} {A : Imported_segment} (hget : segs.get? i = some A)
    {nd : Int} (hgt : A.duration < nd) (sh : Shrink_mode)
    (rest : List Extend_mode) :
    (process_timerange segs i nd sh (.push_tail :: rest)).1 = none ∧
    (∀ j, i < j →
      (((process_timerange segs i nd sh (.push_tail :: rest)).2).get? j).map
          Imported_segment.start
        = (segs.get? j).map (fun s => s.start
            + max 0 (A.endTime + (nd - A.duration) - nextStart segs i))) ∧
    (∀ B, segs.get? (i + 1) = some B → A.endTime = B.start →
      (((process_timerange segs i nd sh (.push_tail :: rest)).2).get? (i + 1)).map
          Imported_segment.start
        = some (A.start + A.duration + (nd - A.duration))) := by
  have hnotlt : ¬ nd < A.duration := by omega
  have hgt2 : nd > A.duration := hgt
  have habs : |nd - A.duration| = nd - A.duration := abs_of_nonneg (by omega)
  have hlen : i < segs.length := by
    rcases List.get?_eq_some.mp hget with ⟨h, _⟩
    exact h
  simp only [process_timerange, hget, habs, if_neg hnotlt, if_pos hgt2, extendLoop]
  refine ⟨by trivial, ?_, ?_⟩
  · intro j hj
    exact pushTail_start_shift (nd - A.duration) j hj (nextStart segs i)
  · intro B hB hAB
    have hlen2 : i + 1 < segs.length := by
      rcases List.get?_eq_some.mp hB with ⟨h, _⟩
      exact h
    have hne : i ≠ segs.length - 1 := by omega
    have hns : nextStart segs i = B.start := by
      unfold nextStart
      rw [if_neg hne, hB]
    have hAB' : A.target_timerange.start + A.target_timerange.duration
        = B.target_timerange.start := by
      simpa [Imported_segment.endTime, Timerange.endTime,
        Imported_segment.start] using hAB
    have h2 := @pushTail_start_shift segs i A
      (nd - A.duration) (i + 1) (by omega) (nextStart segs i)
    rw [hB, Option.map_some'] at h2
    rw [h2, hns]
    have hx : A.endTime + (nd - A.duration) - B.start = nd - A.duration := by
      rw [← hAB]; ring
    rw [hx, max_eq_right (by omega)]
    simp only [Option.some_inj, Imported_segment.start, Imported_segment.duration]
    omega

/-- Witness for C4: two abutting segments `A = {start 0, duration 1000}`,
`B = {start 1000, duration 500}`, extending `A` to `1600`: the call
succeeds, `B` is shifted by the computed amount, and `B`'s new start is
`A.start + A.duration_before + delta`. -/
theorem C4_push_tail_always_succeeds_witness :
    (process_timerange [wseg "a" 0 0 0 1000, wseg "b" 0 0 1000 500] 0 1600 .cut_tail [.push_tail]).1
      = none ∧
    (((process_timerange [wseg "a" 0 0 0 1000, wseg "b" 0 0 1000 500] 0 1600 .cut_tail
        [.push_tail]).2).get? 1).map Imported_segment.start
      = ([wseg "a" 0 0 0 1000, wseg "b" 0 0 1000 500].get? 1).map
          (fun s => s.start + max 0 ((wseg "a" 0 0 0 1000).endTime
            + (1600 - (wseg "a" 0 0 0 1000).duration)
            - nextStart [wseg "a" 0 0 0 1000, wseg "b" 0 0 1000 500] 0)) ∧
    (((process_timerange [wseg "a" 0 0 0 1000, wseg "b" 0 0 1000 500] 0 1600 .cut_tail
        [.push_tail]).2).get? (0 + 1)).map Imported_segment.start
      = some ((wseg "a" 0 0 0 1000).start + (wseg "a" 0 0 0 1000).duration
          + (1600 - (wseg "a" 0 0 0 1000).duration)) := by
  have h := @C4_push_tail_always_succeeds
    [wseg "a" 0 0 0 1000, wseg "b" 0 0 1000 500]
    0 (wseg "a" 0 0 0 1000) rfl 1600 (by decide) .cut_tail []
  exact ⟨h.1, h.2.1 1 (by decide), h.2.2 (wseg "b" 0 0 1000 500) rfl (by decide)⟩

/-- C5: under `cut_tail_align` the addressed segment keeps its target
start and gets exactly the new duration, every following segment's start
decreases by exactly `delta`, and the gap to the successor (successor
start minus this segment's end) is preserved. -/
theorem C5_cut_tail_align_shifts_followers {segs : List Imported_segment}
    {i : Nat} {seg : Imported_segment} (hget : segs.get? i = some seg)
    {nd : Int} (hlt : nd < seg.duration) (ex : List Extend_mode) :
    (process_timerange segs i nd .cut_tail_align ex).1 = none ∧
    (((process_timerange segs i nd .cut_tail_align ex).2).get? i).map
        Imported_segment.start = some seg.start ∧
    (((process_timerange segs i nd .cut_tail_align ex).2).get? i).map
        Imported_segment.duration = some nd ∧
    (∀ j, i < j →
      (((process_timerange segs i nd .cut_tail_align ex).2).get? j).map
          Imported_segment.start
        = (segs.get? j).map (fun s => s.start - (seg.duration - nd))) ∧
    (∀ B, segs.get? (i + 1) = some B →
      ∃ A2 B2,
        ((process_timerange segs i nd .cut_tail_align ex).2).get? i = some A2 ∧
        ((process_timerange segs i nd .cut_tail_align ex).2).get? (i + 1) = some B2 ∧
        B2.start - A2.endTime = B.start - seg.endTime) := by
  have habs : |nd - seg.duration| = seg.duration - nd := by
    rw [abs_of_neg (by omega), neg_sub]
  have hlen : i < segs.length := by
    rcases List.get?_eq_some.mp hget with ⟨h, _⟩
    exact h
  have hsub : seg.duration - (seg.duration - nd) = nd := by omega
  simp only [process_timerange, hget, if_pos hlt, habs, hsub]
  refine ⟨by trivial, ?_, ?_, ?_, ?_⟩
  · rw [shiftAfter_get?_le _ (le_refl i), List.get?_set_eq_of_lt _ hlen]
    simp [setTargetDuration_start]
  · rw [shiftAfter_get?_le _ (le_refl i), List.get?_set_eq_of_lt _ hlen]
    simp [setTargetDuration_duration]
  · intro j hj
    rw [shiftAfter_get?_gt _ hj, List.get?_set_ne _ _ (by omega)]
    cases segs.get? j <;> simp [setTargetStart_start, sub_eq_add_neg]
  · intro B hB
    refine ⟨setTargetDuration seg nd,
      setTargetStart B (B.start + -(seg.duration - nd)), ?_, ?_, ?_⟩
    · rw [shiftAfter_get?_le _ (le_refl i), List.get?_set_eq_of_lt _ hlen]
    · rw [shiftAfter_get?_gt _ (by omega), List.get?_set_ne _ _ (by omega), hB,
        Option.map_some']
    · simp [setTargetStart, setTargetDuration, Imported_segment.start,
        Imported_segment.endTime, Timerange.endTime, Imported_segment.duration]
      ring

/-- Witness for C5: the spec's worked example — `{start 1000, duration 5000}`
with successor at `6000`, shrunk to `3000`, giving `{start 1000, duration
3000}` and the successor's start at `4000`. -/
theorem C5_cut_tail_align_shifts_followers_witness :
    (process_timerange [wseg "m" 0 0 1000 5000, wseg "n" 0 0 6000 2000] 0 3000
        .cut_tail_align []).1 = none ∧
    (((process_timerange [wseg "m" 0 0 1000 5000, wseg "n" 0 0 6000 2000] 0 3000
        .cut_tail_align []).2).get? 0).map Imported_segment.start = some 1000 ∧
    (((process_timerange [wseg "m" 0 0 1000 5000, wseg "n" 0 0 6000 2000] 0 3000
        .cut_tail_align []).2).get? 0).map Imported_segment.duration = some 3000 ∧
    (((process_timerange [wseg "m" 0 0 1000 5000, wseg "n" 0 0 6000 2000] 0 3000
        .cut_tail_align []).2).get? 1).map Imported_segment.start = some 4000 := by
  have h := @C5_cut_tail_align_shifts_followers
    [wseg "m" 0 0 1000 5000, wseg "n" 0 0 6000 2000]
    0 (wseg "m" 0 0 1000 5000) rfl 3000 (by decide) []
  refine ⟨h.1, h.2.1, h.2.2.1, ?_⟩
  have h4 := h.2.2.2.1 1 (by decide)
  simpa using h4

/-- C6: under the `shrink` policy the duration becomes the new duration and
the midpoint of the target timerange moves by at most half a microsecond:
stated with doubled midpoints, `|2·mid_after − 2·mid_before| ≤ 1` where
`2·mid = 2·start + duration`. -/
theorem C6_shrink_keeps_midpoint {segs : List Imported_segment} {i : Nat}
    {seg : Imported_segment} (hget : segs.get? i = some seg)
    {nd : Int} (hlt : nd < seg.duration) (ex : List Extend_mode) :
    (process_timerange segs i nd .shrink ex).1 = none ∧
    ∃ s2, ((process_timerange segs i nd .shrink ex).2).get? i = some s2 ∧
      s2.duration = nd ∧
      |(2 * s2.start + s2.duration) - (2 * seg.start + seg.duration)| ≤ 1 := by
  have habs : |nd - seg.duration| = seg.duration - nd := by
    rw [abs_of_neg (by omega), neg_sub]
  have hlen : i < segs.length := by
    rcases List.get?_eq_some.mp hget with ⟨h, _⟩
    exact h
  have hsub : seg.duration - (seg.duration - nd) = nd := by omega
  simp only [process_timerange, hget, if_pos hlt, habs, hsub]
  refine ⟨by trivial,
    setTargetStart (setTargetDuration seg nd)
      ((setTargetDuration seg nd).start + (seg.duration - nd) / 2), ?_, ?_, ?_⟩
  · rw [List.get?_set_eq_of_lt _ hlen]
  · simp [setTargetStart, setTargetDuration, Imported_segment.duration]
  · simp only [setTargetStart_start, setTargetStart, setTargetDuration,
      Imported_segment.start, Imported_segment.duration]
    rw [abs_le]
    constructor <;> omega

/-- Witness for C6: `{start 1000, duration 5000}` shrunk to `2001`
(odd delta `2999`), landing at `{start 2499, duration 2001}`; the doubled
midpoint moves from `7000` to `6999`. -/
theorem C6_shrink_keeps_midpoint_witness :
    (process_timerange [wseg "m" 0 0 1000 5000] 0 2001 .shrink []).1 = none ∧
    ((process_timerange [wseg "m" 0 0 1000 5000] 0 2001 .shrink []).2).get? 0
      = some (wseg "m" 0 0 2499 2001) ∧
    |(2 * 2499 + 2001 : Int) - (2 * 1000 + 5000)| ≤ 1 := by
  have h := @C6_shrink_keeps_midpoint [wseg "m" 0 0 1000 5000]
    0 (wseg "m" 0 0 1000 5000) rfl 2001 (by decide) []
  exact ⟨h.1, rfl, by decide⟩

/-! ### Round-trip lemmas for the descriptor layer -/

theorem setKey_of_getKey {l : List (String × JVal)} {k : String} {v : JVal}
    (h : getKey l k = some v) : setKey l k v = l := by
  induction l with
  | nil => simp [getKey] at h
  | cons p rest ih =>
    obtain ⟨k0, v0⟩ := p
    by_cases hk : k0 = k
    · subst hk
      unfold getKey at h
      rw [if_pos rfl] at h
      injection h with hv
      subst hv
      unfold setKey
      rw [if_pos rfl]
    · unfold getKey at h
      rw [if_neg hk] at h
      unfold setKey
      rw [if_neg hk, ih h]

theorem parseTimerange_round {j : JVal} {t : Timerange}
    (h : parseTimerange j = some t) : t.export_json = j := by
  unfold parseTimerange at h
  split at h
  · rename_i s d
    simp only [Option.some.injEq] at h
    subst h
    rfl
  · simp at h

theorem asStr_eq_some {o : Option JVal} {s : String} (h : asStr o = some s) :
    o = some (.jstr s) := by
  unfold asStr at h
  split at h
  · rename_i s0
    simp only [Option.some.injEq] at h
    subst h
    rfl
  · simp at h

theorem asArr_eq_some {o : Option JVal} {l : List JVal} (h : asArr o = some l) :
    o = some (.jarr l) := by
  unfold asArr at h
  split at h
  · rename_i l0
    simp only [Option.some.injEq] at h
    subst h
    rfl
  · simp at h

theorem segment_load_round {j : JVal} {s : Imported_segment}
    (h : Imported_segment.load j = some s) : s.export_json = j := by
  unfold Imported_segment.load at h
  split at h
  · rename_i fields
    split at h
    · rename_i mid stj ttj hmid hst htt
      split at h
      · rename_i st tt hpst hptt
        simp only [Option.some.injEq] at h
        subst h
        unfold Imported_segment.export_json
        simp only [updateObj, List.foldl]
        rw [parseTimerange_round hpst, parseTimerange_round hptt,
          setKey_of_getKey hmid, setKey_of_getKey hst, setKey_of_getKey htt]
      · simp at h
    · simp at h
  · simp at h

theorem mapM_load_round {l : List JVal} {segs : List Imported_segment}
    (h : l.mapM Imported_segment.load = some segs) :
    segs.map Imported_segment.export_json = l := by
  induction l generalizing segs with
  | nil =>
    simp only [List.mapM_nil, Option.pure_def, Option.some.injEq] at h
    subst h
    rfl
  | cons a rest ih =>
    simp only [List.mapM_cons, Option.pure_def, Option.bind_eq_bind,
      Option.bind_eq_some, Option.some.injEq] at h
    rcases h with ⟨b, hb, bs, hbs, hcons⟩
    subst hcons
    simp [segment_load_round hb, ih hbs]

theorem imported_track_load_round {j : JVal} {t : Imported_track}
    (h : Imported_track.load j = some t) : t.export_json = j := by
  unfold Imported_track.load at h
  split at h
  · rename_i fields
    simp only [Option.bind_eq_bind, Option.bind_eq_some, Option.some.injEq] at h
    rcases h with ⟨tys, h1, ty, h2, nm, h3, tid, h4, segsJ, h5, ris, h6, ri, h7, segs, h8, h9⟩
    subst h9
    unfold Imported_track.export_json
    simp only
    rw [mapM_load_round h8, setKey_of_getKey (asArr_eq_some h5)]
  · simp at h

theorem static_track_load_round {j : JVal} {t : Static_track}
    (h : Static_track.load j = some t) : Static_track.export_json t = j := by
  unfold Static_track.load at h
  split at h
  · rename_i fields
    simp only [Option.bind_eq_bind, Option.bind_eq_some, Option.some.injEq] at h
    rcases h with ⟨tys, h1, ty, h2, nm, h3, tid, h4, segsJ, h5, ris, h6, ri, h7, h9⟩
    subst h9
    rfl
  · simp at h

/-- C9: loading a track descriptor into an `Imported_track` (or
`Static_track`), performing zero mutations, and exporting it back yields
the original descriptor, including every unknown/opaque field of the track
and of each segment; the typed fields are re-merged at their original
values. -/
theorem C9_round_trip_preserves_descriptor :
    (∀ j t, Imported_track.load j = some t → t.export_json = j) ∧
    (∀ j t, Static_track.load j = some t → Static_track.export_json t = j) :=
  ⟨fun _ _ h => imported_track_load_round h,
   fun _ _ h => static_track_load_round h⟩

/-- Witness for C9: a concrete descriptor with opaque extra fields
(`color` on the track, `volume` on the segment) loads and re-exports to
itself through both track classes. -/
theorem C9_round_trip_preserves_descriptor_witness :
    Imported_track.load sampleTrackJson = some sampleTrack ∧
    Imported_track.export_json sampleTrack = sampleTrackJson ∧
    Static_track.load sampleTrackJson = some sampleStatic ∧
    Static_track.export_json sampleStatic = sampleTrackJson :=
  ⟨rfl,
   C9_round_trip_preserves_descriptor.1 sampleTrackJson sampleTrack rfl,
   rfl,
   C9_round_trip_preserves_descriptor.2 sampleTrackJson sampleStatic rfl⟩

/-- C10: a descriptor whose `segments` list is empty fails to construct
either track class (the `render_index` derivation takes the maximum of an
empty sequence); consequently every successfully constructed
`Imported_track` has a non-empty segment list, and `start_time` /
`end_time` take their non-empty branches (first segment's target start,
last segment's target end), never the `0` fallback. -/
theorem C10_empty_segments_unconstructible :
    (∀ fields, getKey fields "segments" = some (.jarr []) →
      Imported_track.load (.jobj fields) = none ∧
      Static_track.load (.jobj fields) = none) ∧
    (∀ j t, Imported_track.load j = some t →
      t.segments ≠ [] ∧
      (t.segments.head?).map (fun s => s.target_timerange.start) = some t.start_time ∧
      (t.segments.getLast?).map (fun s => s.target_timerange.endTime) = some t.end_time) := by
  constructor
  · intro fields hseg
    have himp : ∀ t, Imported_track.load (.jobj fields) ≠ some t := by
      intro t hload
      simp only [Imported_track.load, Option.bind_eq_bind, Option.bind_eq_some,
        Option.some.injEq] at hload
      rcases hload with ⟨tys, h1, ty, h2, nm, h3, tid, h4, segsJ, h5, ris, h6, ri, h7,
        segs, h8, h9⟩
      have h5' : JVal.jarr segsJ = JVal.jarr [] :=
        Option.some_inj.mp ((asArr_eq_some h5).symm.trans hseg)
      injection h5' with hsj
      subst hsj
      simp only [List.mapM_nil, Option.pure_def, Option.some.injEq] at h6
      subst h6
      simp [maxList] at h7
    have himp2 : ∀ t, Static_track.load (.jobj fields) ≠ some t := by
      intro t hload
      simp only [Static_track.load, Option.bind_eq_bind, Option.bind_eq_some,
        Option.some.injEq] at hload
      rcases hload with ⟨tys, h1, ty, h2, nm, h3, tid, h4, segsJ, h5, ris, h6, ri, h7, h9⟩
      have h5' : JVal.jarr segsJ = JVal.jarr [] :=
        Option.some_inj.mp ((asArr_eq_some h5).symm.trans hseg)
      injection h5' with hsj
      subst hsj
      simp only [List.mapM_nil, Option.pure_def, Option.some.injEq] at h6
      subst h6
      simp [maxList] at h7
    constructor
    · cases hload : Imported_track.load (.jobj fields) with
      | none => rfl
      | some t => exact absurd hload (himp t)
    · cases hload : Static_track.load (.jobj fields) with
      | none => rfl
      | some t => exact absurd hload (himp2 t)
  · intro j t h
    unfold Imported_track.load at h
    split at h
    · rename_i fields
      simp only [Option.bind_eq_bind, Option.bind_eq_some, Option.some.injEq] at h
      rcases h with ⟨tys, h1, ty, h2, nm, h3, tid, h4, segsJ, h5, ris, h6, ri, h7, segs, h8, h9⟩
      subst h9
      cases hsj : segsJ with
      | nil =>
        subst hsj
        simp only [List.mapM_nil, Option.pure_def, Option.some.injEq] at h6
        subst h6
        simp [maxList] at h7
      | cons a rest =>
        subst hsj
        simp only [List.mapM_cons, Option.pure_def, Option.bind_eq_bind,
          Option.bind_eq_some, Option.some.injEq] at h8
        rcases h8 with ⟨b, hb, bs, hbs, hcons⟩
        subst hcons
        refine ⟨by simp, ?_, ?_⟩
        · simp [Imported_track.start_time]
        · have hne : (b :: bs : List Imported_segment) ≠ [] := by simp
          rcases Option.isSome_iff_exists.mp (List.getLast?_isSome.mpr hne) with ⟨last, hlast⟩
          simp only [Imported_track.end_time, hlast, Option.map_some']
    · simp at h

/-- Witness for C10: the loads fail on a descriptor with an empty
`segments` list, and the sample track's accessors take the non-empty
branches. -/
theorem C10_empty_segments_unconstructible_witness :
    (Imported_track.load (.jobj [("segments", .jarr [])]) = none ∧
     Static_track.load (.jobj [("segments", .jarr [])]) = none) ∧
    (sampleTrack.segments ≠ [] ∧
     (sampleTrack.segments.head?).map (fun s => s.target_timerange.start)
       = some sampleTrack.start_time ∧
     (sampleTrack.segments.getLast?).map (fun s => s.target_timerange.endTime)
       = some sampleTrack.end_time) :=
  ⟨C10_empty_segments_unconstructible.1 [("segments", .jarr [])] rfl,
   C10_empty_segments_unconstructible.2 sampleTrackJson sampleTrack rfl⟩

end PyJYD
